import Mathlib

/-!
Verification of the meeting-scheduler workflow (src/flow.py and src/utils/).

Time instants are modelled as natural numbers of minutes since a fixed epoch;
a day is 1440 minutes.  Half-open intervals (start, end) model Python
(datetime, datetime) tuples.
-/

namespace MeetingScheduler

/-- A time slot: a pair of instants in minutes (start, end). -/
abbrev Slot := Nat × Nat

/-- Modelled from the spec: SlotResolver step 2 preprocessing (section 4.5,
"Subtract all busy intervals (sorted, ...)").  The body of
src/utils/check_availability.py is an empty stub, so the algorithm is
modelled from the spec's words.  Busy intervals are sorted ascending by
start instant. -/
def sortBusy (busy : List Slot) : List Slot :=
  busy.insertionSort (fun p q => p.1 ≤ q.1)

/-- Modelled from the spec: SlotResolver step 2 preprocessing (section 4.5,
"... merged if overlapping"): while the next interval starts no later than
the current one ends, absorb it into the current interval, else emit the
current interval and continue from the next one. -/
def mergeBusyAux (p : Slot) : List Slot → List Slot
  | [] => [p]
  | q :: rest =>
    if q.1 ≤ p.2 then mergeBusyAux (p.1, max p.2 q.2) rest
    else p :: mergeBusyAux q rest

/-- Modelled from the spec: SlotResolver step 2 preprocessing (section 4.5,
"... merged if overlapping").  Adjacent or overlapping intervals of a
start-sorted list are coalesced. -/
def mergeBusy : List Slot → List Slot
  | [] => []
  | p :: rest => mergeBusyAux p rest

/-- Modelled from the spec: SlotResolver step 2 (section 4.5), subtracting a
list of busy intervals from the window [a, b), producing the free
sub-intervals in order. -/
def subtractBusy (a b : Nat) : List Slot → List Slot
  | [] => if a < b then [(a, b)] else []
  | (s, e) :: rest =>
    if e ≤ a then subtractBusy a b rest
    else if b ≤ s then (if a < b then [(a, b)] else [])
    else if a < s then (a, s) :: subtractBusy (max a e) b rest
    else subtractBusy (max a e) b rest

/-- Modelled from the spec: SlotResolver steps 1-3 for a single calendar day
d (section 4.5): the day's working interval [d at start-hour, d at end-hour)
intersected with the overall window, minus the (merged) busy intervals,
keeping only sub-intervals of at least the minimum duration. -/
def dayFree (wStart wEnd sh eh minDur : Nat) (merged : List Slot) (d : Nat) : List Slot :=
  (subtractBusy (max (d * 1440 + sh * 60) wStart) (min (d * 1440 + eh * 60) wEnd)
      merged).filter (fun p => decide (minDur ≤ p.2 - p.1))

/-- Modelled from the spec: SlotResolver step 4 (section 4.5), concatenating
the per-day free slots of n consecutive days starting at day d in
chronological order. -/
def daysFree (wStart wEnd sh eh minDur : Nat) (merged : List Slot) : Nat → Nat → List Slot
  | _, 0 => []
  | d, n + 1 =>
    dayFree wStart wEnd sh eh minDur merged d ++
      daysFree wStart wEnd sh eh minDur merged (d + 1) n

/-- Modelled from the spec: SlotResolver (section 4.5).  The body of
check_availability in src/utils/check_availability.py is an empty stub; only
its declaration (window, minimum duration, working hours) is in src/, so the
algorithm follows the spec's words: clip the search window to calendar days,
subtract the sorted-and-merged busy intervals from each day's working
interval, discard sub-intervals shorter than the minimum duration,
concatenate across days; a degenerate window (start >= end) fails with
InvalidRangeError, and an empty result list is a valid non-error result. -/
def check_availability (start_time end_time min_duration : Nat)
    (working_hours : Nat × Nat) (busy : List Slot) : Except String (List Slot) :=
  if start_time < end_time then
    let merged := mergeBusy (sortBusy busy)
    let firstDay := start_time / 1440
    let lastDay := (end_time - 1) / 1440
    .ok (daysFree start_time end_time working_hours.1 working_hours.2 min_duration
          merged firstDay (lastDay - firstDay + 1))
  else .error "InvalidRangeError"

/-- A calendar instant at minute precision, as produced by Python's
datetime.strptime with format "%Y-%m-%d %H:%M ET" (flow.py lines 212-213
and 336-337). -/
structure DT where
  year : Nat
  month : Nat
  day : Nat
  hour : Nat
  minute : Nat
deriving DecidableEq, Repr

/-- Order key for DT.  Python compares datetimes lexicographically on
(year, month, day, hour, minute); for the in-range field values the parser
produces (month <= 12, day <= 31, hour <= 23, minute <= 59) this mixed-radix
key realises exactly that lexicographic order. -/
def DT.key (t : DT) : Nat :=
  (((t.year * 13 + t.month) * 32 + t.day) * 24 + t.hour) * 60 + t.minute

instance : LT DT := ⟨fun a b => a.key < b.key⟩

instance : LE DT := ⟨fun a b => a.key ≤ b.key⟩

instance (a b : DT) : Decidable (a < b) :=
  inferInstanceAs (Decidable (a.key < b.key))

instance (a b : DT) : Decidable (a ≤ b) :=
  inferInstanceAs (Decidable (a.key ≤ b.key))

/-- The first list begins with the second one. -/
def startsWithL : List Char → List Char → Bool
  | _, [] => true
  | [], _ :: _ => false
  | c :: cs, d :: ds => c == d && startsWithL cs ds

/-- Python str.split(sep) for a non-empty separator, scanning left to right
over non-overlapping separator occurrences; the fuel argument (always
called with the scanned list's length) keeps the recursion structural. -/
def splitOnFuel (sep : List Char) : Nat → List Char → List Char → List (List Char)
  | _, [], acc => [acc.reverse]
  | 0, l, acc => [acc.reverse ++ l]
  | fuel + 1, c :: cs, acc =>
    if startsWithL (c :: cs) sep then
      acc.reverse :: splitOnFuel sep fuel (List.drop (sep.length - 1) cs) []
    else splitOnFuel sep fuel cs (c :: acc)

/-- Python str.split(sep) on character lists. -/
def splitOnL (sep l : List Char) : List (List Char) :=
  if sep.isEmpty then [l] else splitOnFuel sep l.length l []

/-- Python int() on a string of decimal digits (as consumed by a strptime
field directive): none when empty or holding a non-digit. -/
def natFromDigits (cs : List Char) : Option Nat :=
  if cs.isEmpty then none
  else
    cs.foldl
      (fun acc c =>
        match acc with
        | some n => if c.isDigit then some (n * 10 + (c.toNat - 48)) else none
        | none => none)
      (some 0)

/-- Removes leading whitespace of a character list. -/
def dropWhileWs : List Char → List Char
  | [] => []
  | c :: cs => if c.isWhitespace then dropWhileWs cs else c :: cs

/-- Python str.strip(): whitespace removed from both ends. -/
def trimChars (cs : List Char) : List Char :=
  dropWhileWs (dropWhileWs cs.reverse).reverse

/-- datetime.strptime(s, "%Y-%m-%d %H:%M ET") (flow.py lines 212, 213, 336,
337) on a character list: the string must be date, time and the literal
"ET" separated by single blanks, the date three dash-separated numerals,
the time two colon-separated numerals, with the fields in calendar range;
any other shape raises ValueError, modelled as none. -/
def parseDTChars (cs : List Char) : Option DT :=
  match splitOnL " ".data cs with
  | [dateCs, timeCs, etCs] =>
    if etCs = "ET".data then
      match splitOnL "-".data dateCs, splitOnL ":".data timeCs with
      | [ys, ms, ds], [hs, mins] =>
        match natFromDigits ys, natFromDigits ms, natFromDigits ds,
            natFromDigits hs, natFromDigits mins with
        | some y, some m, some d, some hh, some mm =>
          if 1 ≤ y ∧ 1 ≤ m ∧ m ≤ 12 ∧ 1 ≤ d ∧ d ≤ 31 ∧ hh ≤ 23 ∧ mm ≤ 59 then
            some ⟨y, m, d, hh, mm⟩
          else none
        | _, _, _, _, _ => none
      | _, _ => none
    else none
  | _ => none

/-- datetime.strptime(s, "%Y-%m-%d %H:%M ET") on a string. -/
def parseDT (s : String) : Option DT :=
  parseDTChars s.data

/-- ActionDeciderNode.exec, flow.py lines 335-337: the "chosen_slot" string
is split on " to ", the first part parsed as a full datetime, and the second
part parsed as a time of day with the first part's date put in front (so the end
instant always reuses the start instant's date). -/
def parseChosenSlot (s : String) : Option (DT × DT) :=
  match splitOnL " to ".data s.data with
  | [startCs, endCs] =>
    match parseDTChars startCs, splitOnL " ".data startCs with
    | some st, dateCs :: _ =>
      match parseDTChars (dateCs ++ " ".data ++ endCs) with
      | some en => some (st, en)
      | none => none
    | _, _ => none
  | _ => none

/-- The YAML value under "chosen_slot" in the LLM's reply to
ActionDeciderNode (flow.py line 327): null, or a free-text slot string. -/
inductive ChosenRaw
  | null
  | str (s : String)
deriving DecidableEq, Repr

/-- Python truthiness of a "chosen_slot" YAML value (flow.py line 334:
"and result[...]"): None and the empty string are falsy. -/
def ChosenRaw.truthy : ChosenRaw → Bool
  | .null => false
  | .str s => s != ""

/-- The value stored back under "chosen_slot" after ActionDeciderNode.exec:
untouched None, an untouched (falsy or unconverted) string, or the parsed
(start, end) datetime pair. -/
inductive ChosenVal
  | null
  | raw (s : String)
  | slot (p : DT × DT)
deriving DecidableEq, Repr

/-- A ChosenRaw carried through exec unconverted. -/
def ChosenRaw.toVal : ChosenRaw → ChosenVal
  | .null => .null
  | .str s => .raw s

/-- The parsed YAML of the LLM's reply to ActionDeciderNode (flow.py lines
329-331): an action name and an optional chosen-slot string. -/
structure RawDecision where
  action : String
  chosen_slot : ChosenRaw
deriving DecidableEq, Repr

/-- The result of ActionDeciderNode.exec. -/
structure Decision where
  action : String
  chosen_slot : ChosenVal
deriving DecidableEq, Repr

instance {ε α : Type} [DecidableEq ε] [DecidableEq α] (a b : Except ε α) :
    Decidable (a = b) :=
  match a, b with
  | .error x, .error y =>
    if h : x = y then .isTrue (by rw [h]) else .isFalse (by simp [h])
  | .error _, .ok _ => .isFalse (by simp)
  | .ok _, .error _ => .isFalse (by simp)
  | .ok x, .ok y =>
    if h : x = y then .isTrue (by rw [h]) else .isFalse (by simp [h])

/-- ActionDeciderNode.exec, flow.py lines 299-344, applied to the parsed
YAML of the LLM's reply.  The available slots are rendered into the prompt
(lines 302-304) but take no part in computing the result: when the action is
"schedule" and the chosen-slot value is truthy, the slot string is parsed
into a (start, end) pair — a malformed string raises ValueError — and no
check of any kind is made against available_slots; otherwise the result is
passed through unchanged. -/
def actionDeciderExec (available_slots : List (DT × DT)) (result : RawDecision) :
    Except String Decision :=
  if result.action = "schedule" ∧ result.chosen_slot.truthy = true then
    match result.chosen_slot with
    | .str s =>
      match parseChosenSlot s with
      | some p => .ok ⟨result.action, .slot p⟩
      | none => .error "ValueError"
    | .null => .ok ⟨result.action, .null⟩
  else .ok ⟨result.action, result.chosen_slot.toVal⟩

/-- The meeting details produced by AvailabilityRangeExtractorNode.exec
(flow.py lines 198-236) after validation. -/
structure Meeting where
  duration : Int
  tf_start : DT
  tf_end : DT
  attendees : List String
  location : String
  description : String
  reason : String
deriving DecidableEq, Repr

/-- The per-email meeting request stored in the workspace
(AvailabilityRangeExtractorNode.post, flow.py lines 240-245). -/
structure Request where
  status : String
  meeting : Meeting
  available_slots : List (DT × DT)
  chosen_slot : ChosenVal
deriving DecidableEq, Repr

/-- ActionDeciderNode.post, flow.py lines 346-353: on action "schedule" the
chosen slot is stored in the request and "schedule" returned; on any other
action nothing is stored and "ask_time" is returned. -/
def actionDeciderPost (req : Request) (exec_res : Decision) : Request × String :=
  if exec_res.action = "schedule" then
    ({ req with chosen_slot := exec_res.chosen_slot }, "schedule")
  else (req, "ask_time")

/-- The chosen pair lies inside one of the listed free slots (the
containment the spec's section 4.6 demands of a scheduled slot). -/
def containedIn (p : DT × DT) (slots : List (DT × DT)) : Prop :=
  ∃ q ∈ slots, q.1.key ≤ p.1.key ∧ p.2.key ≤ q.2.key

instance (p : DT × DT) (slots : List (DT × DT)) : Decidable (containedIn p slots) :=
  inferInstanceAs (Decidable (∃ q ∈ slots, _ ∧ _))

/-- Models email.utils.getaddresses([a])[0][1].lower().strip() (flow.py
lines 51, 57, 225) for the address forms the system handles, "addr" and
"Name <addr>": the part between the first "<" and the following ">" when an
angle bracket is present, otherwise the whole string; then lowercased and
stripped of surrounding whitespace. -/
def normalizeAddr (a : String) : String :=
  let addr :=
    match splitOnL "<".data a.data with
    | [only] => only
    | _ :: inner :: _ => (splitOnL ">".data inner).headD inner
    | [] => a.data
  String.mk (trimChars (addr.map Char.toLower))

/-- AvailabilityRangeExtractorNode.exec, flow.py lines 223-227: every
address of [sender] + cc_list + bcc_list is normalized and appended to the
attendee list unless already present in it. -/
def addAttendees (init : List String) : List String → List String
  | [] => init
  | addr :: rest =>
    let e := normalizeAddr addr
    addAttendees (if e ∈ init then init else init ++ [e]) rest

/-- The parsed YAML of the LLM's reply to AvailabilityRangeExtractorNode
(flow.py lines 196-198) before validation: each field optional (absent when
the YAML lacks the key or, for duration, when it is not an integer). -/
structure RawExtract where
  duration : Option Int
  tf_start : Option String
  tf_end : Option String
  description : Option String
  reason : Option String
  attendees : Option (List String)
  location : Option String
deriving DecidableEq, Repr

/-- AvailabilityRangeExtractorNode.exec, flow.py lines 198-236, applied to
the parsed YAML of the LLM's reply; today is the datetime.now() captured at
the start of the call (line 139).  In source order: assert duration present
and integer, timeframe start and end present, description and reason
present (lines 201-208); parse both timeframe strings, raising ValueError
on failure (lines 211-216); assert start < end and start >= today (lines
219-220); then append the normalized sender, cc and bcc addresses to the
attendee list when not already present (lines 223-227) and default the
location to "" (line 230). -/
def rangeExtractorExec (today : DT) (sender : String) (cc_list bcc_list : List String)
    (raw : RawExtract) : Except String Meeting :=
  match raw.duration with
  | none => .error "AssertionError: Duration is required"
  | some dur =>
    match raw.tf_start, raw.tf_end with
    | some sStr, some eStr =>
      match raw.description, raw.reason with
      | some desc, some rsn =>
        (match parseDT sStr, parseDT eStr with
        | some st, some en =>
          if st.key < en.key then
            if today.key ≤ st.key then
              .ok ⟨dur, st, en,
                addAttendees (raw.attendees.getD []) ([sender] ++ cc_list ++ bcc_list),
                raw.location.getD "", desc, rsn⟩
            else .error "AssertionError: Start time cannot be in the past"
          else .error "AssertionError: Start time must be before end time"
        | _, _ => .error "ValueError")
      | _, _ => .error "AssertionError: Description and reason are required"
    | _, _ => .error "AssertionError: Timeframe is required"

/-- An inbound email as delivered by the check_unread_emails collaborator
(src/utils/check_unread_emails.py docstring): recipient lists already
normalized by the collaborator. -/
structure Msg where
  message_id : String
  sender : String
  «to» : List String
  cc : List String
  bcc : List String
  subject : String
  body : String
deriving DecidableEq, Repr

/-- EmailFetcherNode.exec, flow.py lines 34-69, applied to the
collaborator's fetch result: an empty fetch yields None; otherwise the
emails are filtered to those whose normalized sender equals the normalized
authorized address, or whose cc or bcc list contains the authorized
address; the "to" list is never consulted.  An empty filter result yields
None (line 69). -/
def emailFetcherExec (authorized_user : String) (emails : List Msg) : Option (List Msg) :=
  if emails.isEmpty then none
  else
    let authorized_email := normalizeAddr authorized_user
    let authorized := emails.filter fun e =>
      normalizeAddr e.sender == authorized_email ||
        e.cc.contains authorized_email || e.bcc.contains authorized_email
    if authorized.isEmpty then none else some authorized

/-- The shared workspace as EmailFetcherNode.post touches it: the
pending_emails mapping from message identifier to message. -/
structure Shared where
  pending : List (String × Msg)
deriving DecidableEq, Repr

/-- An observable side effect of a node stage. -/
inductive Effect
  | sleep (seconds : Nat)
deriving DecidableEq, Repr

/-- Python dict assignment d[k] = v on an association list: replace the
binding of k when present, append otherwise. -/
def dictSet (d : List (String × Msg)) (k : String) (v : Msg) : List (String × Msg) :=
  match d with
  | [] => [(k, v)]
  | (k', v') :: rest => if k' = k then (k, v) :: rest else (k', v') :: dictSet rest k v

/-- Python dict lookup d[k] on an association list. -/
def dictGet (d : List (String × Msg)) (k : String) : Option Msg :=
  match d with
  | [] => none
  | (k', v) :: rest => if k' = k then some v else dictGet rest k

/-- The dict comprehension of flow.py lines 78-80:
a fresh mapping message_id -> msg built over the fetched messages. -/
def mkDict (msgs : List Msg) : List (String × Msg) :=
  msgs.foldl (fun d m => dictSet d m.message_id m) []

/-- EmailFetcherNode.post, flow.py lines 71-83: a falsy exec result (None,
or an empty list) sleeps 30 seconds and returns "monitor"; otherwise the
workspace's pending_emails is replaced wholesale by a fresh mapping keyed
by message identifier and "analyze_batch" is returned. -/
def emailFetcherPost (shared : Shared) (exec_res : Option (List Msg)) :
    Shared × String × List Effect :=
  match exec_res with
  | none => (shared, "monitor", [.sleep 30])
  | some [] => (shared, "monitor", [.sleep 30])
  | some msgs => ({ shared with pending := mkDict msgs }, "analyze_batch", [])

/-- The nodes and flows instantiated at module level (flow.py lines
631-640, 659). -/
inductive NodeId
  | email_fetcher
  | email_analyzer
  | range_extractor
  | availability_checker
  | action_decider
  | meeting_scheduler
  | schedule_confirmation
  | time_proposal
  | no_slots
  | email_sender
  | email_analysis
deriving DecidableEq, Repr

/-- A registered transition target: another node, or the explicit
termination marker (the ">> None" wiring form). -/
inductive Dest
  | node (n : NodeId)
  | terminate
deriving DecidableEq, Repr

/-- The transition table wired at module level in flow.py lines 642-664:
successors n a is the destination registered for node n under action name
a, none when the pair is unregistered.  The instantiated no_slots node has
no registration at all — neither as a source nor as a destination. -/
def successors (n : NodeId) (a : String) : Option Dest :=
  match n with
  | .email_analyzer =>
    if a = "extract_availability_range" then some (.node .range_extractor)
    else if a = "end" then some .terminate
    else none
  | .range_extractor =>
    if a = "check_availability" then some (.node .availability_checker) else none
  | .availability_checker =>
    if a = "decide_next_action" then some (.node .action_decider) else none
  | .action_decider =>
    if a = "schedule" then some (.node .meeting_scheduler)
    else if a = "ask_time" then some (.node .time_proposal)
    else none
  | .meeting_scheduler =>
    if a = "send_confirmation" then some (.node .schedule_confirmation) else none
  | .schedule_confirmation =>
    if a = "send_email" then some (.node .email_sender) else none
  | .time_proposal =>
    if a = "send_email" then some (.node .email_sender) else none
  | .email_sender =>
    if a = "end" then some .terminate else none
  | .email_fetcher =>
    if a = "monitor" then some (.node .email_fetcher)
    else if a = "analyze_batch" then some (.node .email_analysis)
    else none
  | .email_analysis =>
    if a = "default" then some (.node .email_fetcher) else none
  | .no_slots => none

/-- The action names each node's post stage can return, read off the post
bodies in flow.py (lines 71-83, 116-123, 238-247, 279-283, 346-353,
384-388, 450-456, 520-526, 580-586, 621-622) and, for the batch flow, the
aggregate action of section 4.3 of the spec. -/
def declaredActions : NodeId → List String
  | .email_fetcher => ["monitor", "analyze_batch"]
  | .email_analyzer => ["extract_availability_range", "end"]
  | .range_extractor => ["check_availability"]
  | .availability_checker => ["decide_next_action"]
  | .action_decider => ["schedule", "ask_time"]
  | .meeting_scheduler => ["send_confirmation"]
  | .schedule_confirmation => ["send_email"]
  | .time_proposal => ["send_email"]
  | .no_slots => ["send_email"]
  | .email_sender => ["end"]
  | .email_analysis => ["default"]

/-- Modelled from the spec: graph construction validation (section 4.2) —
the pocketflow framework is not among the repository's files under src/,
only its callers in flow.py are.  Construction checks, before any run, that
every (node, action) pair a node can emit has a registered destination or
explicit termination marker, and fails fatally with ConfigurationError
otherwise. -/
def validateGraph (nodes : List NodeId) : Except String Unit :=
  if nodes.all (fun n => (declaredActions n).all fun a => (successors n a).isSome) then
    .ok ()
  else .error "ConfigurationError"

/-- EmailAnalysisBatchFlow.prep, flow.py lines 626-628: one bound parameter
set per pending message, carrying that message's identifier. -/
def emailAnalysisBatchPrep (shared : Shared) : List String :=
  shared.pending.map fun kv => kv.1

/-- Modelled from the spec: BatchRunner (section 4.3) — the pocketflow
BatchFlow driver is not among the repository's files under src/.  Each
item of the snapshot is driven through its own graph walk; the walk's
outcome (terminal action reached, or failed with an error) is collected
per item without aborting the other items' walks, and after all items
complete the single aggregate action "default" is yielded to the caller
regardless of the per-item outcomes. -/
def batchRun (items : List String) (runWalk : String → Except String String) :
    String × List (String × Except String String) :=
  ("default", items.map fun p => (p, runWalk p))

/-! ### Lemmas about the slot resolver -/

theorem subtractBusy_mem (L : List Slot) (a b : Nat) (p : Slot)
    (hL : ∀ q ∈ L, q.1 < q.2) (hp : p ∈ subtractBusy a b L) :
    a ≤ p.1 ∧ p.1 < p.2 ∧ p.2 ≤ b := by
  induction L generalizing a with
  | nil =>
    simp only [subtractBusy] at hp
    split at hp
    · rcases List.mem_singleton.mp hp with rfl
      exact ⟨le_refl _, by assumption, le_refl _⟩
    · simp at hp
  | cons q rest ih =>
    obtain ⟨s, e⟩ := q
    have hse : s < e := hL (s, e) (by simp)
    have hrest : ∀ r ∈ rest, r.1 < r.2 := fun r hr => hL r (List.mem_cons_of_mem _ hr)
    simp only [subtractBusy] at hp
    split at hp
    · exact ih _ hrest hp
    · split at hp
      · split at hp
        · rcases List.mem_singleton.mp hp with rfl
          exact ⟨le_refl _, by assumption, le_refl _⟩
        · simp at hp
      · split at hp
        · rcases List.mem_cons.mp hp with rfl | hp'
          · refine ⟨le_refl _, by assumption, ?_⟩
            omega
          · have h := ih _ hrest hp'
            exact ⟨le_trans (le_max_left a e) h.1, h.2.1, h.2.2⟩
        · have h := ih _ hrest hp
          exact ⟨le_trans (le_max_left a e) h.1, h.2.1, h.2.2⟩

theorem subtractBusy_chain (L : List Slot) (a b : Nat)
    (hL : ∀ q ∈ L, q.1 < q.2) :
    (subtractBusy a b L).Pairwise (fun p q => p.2 ≤ q.1) := by
  induction L generalizing a with
  | nil =>
    simp only [subtractBusy]
    split <;> simp
  | cons q rest ih =>
    obtain ⟨s, e⟩ := q
    have hse : s < e := hL (s, e) (by simp)
    have hrest : ∀ r ∈ rest, r.1 < r.2 := fun r hr => hL r (List.mem_cons_of_mem _ hr)
    simp only [subtractBusy]
    split
    · exact ih _ hrest
    · split
      · split <;> simp
      · split
        · refine List.pairwise_cons.mpr ⟨?_, ih _ hrest⟩
          intro r hr
          have h := subtractBusy_mem rest (max a e) b r hrest hr
          have : e ≤ max a e := le_max_right a e
          omega
        · exact ih _ hrest

theorem mergeBusyAux_proper (L : List Slot) :
    ∀ (p : Slot), p.1 < p.2 → (∀ q ∈ L, q.1 < q.2) →
      ∀ q ∈ mergeBusyAux p L, q.1 < q.2 := by
  induction L with
  | nil => intro p hp _ q hq; rcases List.mem_singleton.mp hq with rfl; exact hp
  | cons r rest ih =>
    intro p hp hL q hq
    rw [mergeBusyAux] at hq
    split at hq
    · exact ih (p.1, max p.2 r.2) (lt_of_lt_of_le hp (le_max_left _ _))
        (fun x hx => hL x (List.mem_cons_of_mem _ hx)) q hq
    · rcases List.mem_cons.mp hq with rfl | hq'
      · exact hp
      · exact ih r (hL r (by simp)) (fun x hx => hL x (List.mem_cons_of_mem _ hx)) q hq'

theorem mergeBusy_proper (L : List Slot) (hL : ∀ q ∈ L, q.1 < q.2) :
    ∀ q ∈ mergeBusy L, q.1 < q.2 := by
  cases L with
  | nil => simp [mergeBusy]
  | cons p rest =>
    exact mergeBusyAux_proper rest p (hL p (by simp))
      (fun x hx => hL x (List.mem_cons_of_mem _ hx))

theorem sortBusy_proper (L : List Slot) (hL : ∀ q ∈ L, q.1 < q.2) :
    ∀ q ∈ sortBusy L, q.1 < q.2 := by
  intro q hq
  exact hL q ((List.perm_insertionSort _ L).mem_iff.mp hq)

theorem dayFree_mem (wS wE sh eh minDur : Nat) (merged : List Slot) (d : Nat)
    (hm : ∀ q ∈ merged, q.1 < q.2) (p : Slot)
    (hp : p ∈ dayFree wS wE sh eh minDur merged d) :
    d * 1440 + sh * 60 ≤ p.1 ∧ p.1 < p.2 ∧ p.2 ≤ d * 1440 + eh * 60 ∧
      minDur ≤ p.2 - p.1 := by
  simp only [dayFree, List.mem_filter, decide_eq_true_eq] at hp
  obtain ⟨hmem, hdur⟩ := hp
  have h := subtractBusy_mem merged _ _ p hm hmem
  refine ⟨le_trans (le_max_left _ _) h.1, h.2.1, le_trans h.2.2 (min_le_left _ _), hdur⟩

theorem daysFree_mem (wS wE sh eh minDur : Nat) (merged : List Slot)
    (hm : ∀ q ∈ merged, q.1 < q.2) (n : Nat) :
    ∀ (d : Nat), ∀ p ∈ daysFree wS wE sh eh minDur merged d n,
      d * 1440 + sh * 60 ≤ p.1 ∧ p.1 < p.2 ∧ minDur ≤ p.2 - p.1 := by
  induction n with
  | zero => intro d p hp; simp [daysFree] at hp
  | succ n ih =>
    intro d p hp
    rcases List.mem_append.mp hp with h1 | h2
    · have h := dayFree_mem wS wE sh eh minDur merged d hm p h1
      exact ⟨h.1, h.2.1, h.2.2.2⟩
    · have h := ih (d + 1) p h2
      refine ⟨le_trans ?_ h.1, h.2.1, h.2.2⟩
      have : d * 1440 ≤ (d + 1) * 1440 := by omega
      omega

theorem daysFree_chain (wS wE sh eh minDur : Nat) (merged : List Slot)
    (hm : ∀ q ∈ merged, q.1 < q.2) (heh : eh ≤ 24) (n : Nat) :
    ∀ (d : Nat),
      (daysFree wS wE sh eh minDur merged d n).Pairwise (fun p q => p.2 ≤ q.1) := by
  induction n with
  | zero => intro d; simp [daysFree]
  | succ n ih =>
    intro d
    simp only [daysFree]
    rw [List.pairwise_append]
    refine ⟨?_, ih (d + 1), ?_⟩
    · exact List.Pairwise.sublist (List.filter_sublist _) (subtractBusy_chain merged _ _ hm)
    · intro p hp q hq
      have h1 := dayFree_mem wS wE sh eh minDur merged d hm p hp
      have h2 := daysFree_mem wS wE sh eh minDur merged hm n (d + 1) q hq
      have heh60 : eh * 60 ≤ 1440 := by omega
      have : d * 1440 + eh * 60 ≤ (d + 1) * 1440 + sh * 60 := by
        have : (d + 1) * 1440 = d * 1440 + 1440 := by ring
        omega
      omega

/-- C3: for every search window with start < end, minimum duration,
working-hours pair (with a daily end hour on the clock, at most 24) and
busy-interval set (each interval proper, start < end, as section 3's
TimeSlot demands), check_availability succeeds and returns a slot list that
is sorted strictly ascending by start, pairwise non-overlapping, and whose
every slot is proper and at least the minimum duration long; an empty list
is a possible non-error result. -/
theorem check_availability_wellformed (wS wE minDur sh eh : Nat) (busy : List Slot)
    (hw : wS < wE) (hbusy : ∀ q ∈ busy, q.1 < q.2) (heh : eh ≤ 24) :
    ∃ slots, check_availability wS wE minDur (sh, eh) busy = .ok slots ∧
      slots.Pairwise (fun p q => p.1 < q.1) ∧
      slots.Pairwise (fun p q => p.2 ≤ q.1) ∧
      ∀ p ∈ slots, p.1 < p.2 ∧ minDur ≤ p.2 - p.1 := by
  have hm : ∀ q ∈ mergeBusy (sortBusy busy), q.1 < q.2 :=
    mergeBusy_proper _ (sortBusy_proper busy hbusy)
  refine ⟨_, by rw [check_availability, if_pos hw], ?_, ?_, ?_⟩
  · refine List.Pairwise.imp_of_mem ?_
      (daysFree_chain wS wE sh eh minDur _ hm heh _ _)
    intro p q hp _ hle
    have h := daysFree_mem wS wE sh eh minDur _ hm _ _ p hp
    omega
  · exact daysFree_chain wS wE sh eh minDur _ hm heh _ _
  · intro p hp
    have h := daysFree_mem wS wE sh eh minDur _ hm _ _ p hp
    exact ⟨h.2.1, h.2.2⟩

/-- Witness for C3 at a concrete input: a one-day window 09:00-17:00 with a
one-hour busy block is well-formed (the computed slots are 09:00-10:00 and
11:00-17:00), and the same window fully booked yields the empty list as a
non-error result. -/
theorem check_availability_wellformed_witness :
    ((540 : Nat) < 1020 ∧
      ∃ slots, check_availability 540 1020 30 (9, 17) [(600, 660)] = .ok slots ∧
        slots.Pairwise (fun p q => p.1 < q.1) ∧
        slots.Pairwise (fun p q => p.2 ≤ q.1) ∧
        ∀ p ∈ slots, p.1 < p.2 ∧ 30 ≤ p.2 - p.1) ∧
    check_availability 540 1020 30 (9, 17) [(600, 660)] = .ok [(540, 600), (660, 1020)] ∧
    check_availability 540 1020 30 (9, 17) [(0, 1440)] = .ok [] :=
  ⟨⟨by decide,
      check_availability_wellformed 540 1020 30 9 17 [(600, 660)] (by decide)
        (by decide) (by decide)⟩,
    by decide, by decide⟩

/-! ### Lemmas about attendee accumulation and the pending-email dict -/

theorem addAttendees_mono (l : List String) :
    ∀ (init : List String) (x : String), x ∈ init → x ∈ addAttendees init l := by
  induction l with
  | nil => intro init x hx; simpa [addAttendees] using hx
  | cons a rest ih =>
    intro init x hx
    rw [addAttendees]
    split
    · exact ih init x hx
    · exact ih _ x (List.mem_append_left _ hx)

theorem addAttendees_mem (l : List String) :
    ∀ (init : List String) (a : String), a ∈ l → normalizeAddr a ∈ addAttendees init l := by
  induction l with
  | nil => intro init a ha; simp at ha
  | cons b rest ih =>
    intro init a ha
    rcases List.mem_cons.mp ha with rfl | ha'
    · rw [addAttendees]
      split
      · exact addAttendees_mono rest init _ (by assumption)
      · exact addAttendees_mono rest _ _ (List.mem_append_right _ (by simp))
    · rw [addAttendees]
      split
      · exact ih init a ha'
      · exact ih _ a ha'

theorem addAttendees_nodup (l : List String) :
    ∀ init : List String, init.Nodup → (addAttendees init l).Nodup := by
  induction l with
  | nil => intro init h; simpa [addAttendees] using h
  | cons a rest ih =>
    intro init h
    rw [addAttendees]
    split
    · exact ih init h
    · refine ih _ ?_
      have ha : normalizeAddr a ∉ init := by assumption
      simp [List.nodup_append, h, ha]

theorem dictGet_dictSet (d : List (String × Msg)) (k k' : String) (v : Msg) :
    dictGet (dictSet d k v) k' = if k' = k then some v else dictGet d k' := by
  induction d with
  | nil =>
    by_cases h : k' = k
    · subst h; simp [dictSet, dictGet]
    · have h' : ¬k = k' := fun hh => h hh.symm
      simp [dictSet, dictGet, h, h']
  | cons kv rest ih =>
    obtain ⟨k0, v0⟩ := kv
    by_cases h0 : k0 = k
    · subst h0
      by_cases h : k' = k0
      · subst h; simp [dictSet, dictGet]
      · have h' : ¬k0 = k' := fun hh => h hh.symm
        simp [dictSet, dictGet, h, h']
    · by_cases h : k' = k
      · subst h
        simp [dictSet, dictGet, h0, ih, fun hh : k0 = k' => h0 hh]
      · by_cases h1 : k0 = k'
        · subst h1
          simp [dictSet, dictGet, h0, ih, h]
        · simp [dictSet, dictGet, h0, h1, ih, h]

theorem foldl_dictSet_inv (msgs : List Msg) (S : List Msg) (hS : ∀ m ∈ msgs, m ∈ S) :
    ∀ acc : List (String × Msg),
      (∀ (k : String) (m : Msg), dictGet acc k = some m → m.message_id = k ∧ m ∈ S) →
      ∀ (k : String) (m : Msg),
        dictGet (msgs.foldl (fun d m => dictSet d m.message_id m) acc) k = some m →
        m.message_id = k ∧ m ∈ S := by
  induction msgs with
  | nil => intro acc hacc k m hm; exact hacc k m hm
  | cons m0 rest ih =>
    intro acc hacc k m hm
    refine ih (fun x hx => hS x (List.mem_cons_of_mem _ hx)) _ ?_ k m hm
    intro k' m' h'
    rw [dictGet_dictSet] at h'
    split at h'
    · obtain rfl := Option.some_inj.mp h'
      rename_i hcond
      exact ⟨hcond.symm, hS m0 (by simp)⟩
    · exact hacc k' m' h'

theorem mkDict_mem (msgs : List Msg) (k : String) (m : Msg)
    (h : dictGet (mkDict msgs) k = some m) : m.message_id = k ∧ m ∈ msgs :=
  foldl_dictSet_inv msgs msgs (fun _ hx => hx) [] (by intro k' m' h'; simp [dictGet] at h')
    k m h

theorem mkDict_get_none (msgs : List Msg) (k : String)
    (hk : k ∉ msgs.map fun m => m.message_id) : dictGet (mkDict msgs) k = none := by
  cases hEq : dictGet (mkDict msgs) k with
  | none => rfl
  | some m =>
    have h := mkDict_mem msgs k m hEq
    exact absurd (h.1 ▸ List.mem_map_of_mem _ h.2) hk

/-! ### The action-decision node (C1, C2) -/

/-- C1 counterexample: with one listed free slot on October 21 and an LLM
reply scheduling a October 20 slot — outside every listed free slot —
ActionDeciderNode.exec succeeds (no ValidationError is raised) and post
stores the out-of-list slot and routes to "schedule": the claim that such a
slot makes the node fail is false on this input. -/
theorem actionDecider_counterexample :
    actionDeciderExec [(⟨2026, 10, 21, 9, 0⟩, ⟨2026, 10, 21, 17, 0⟩)]
        ⟨"schedule", .str "2026-10-20 14:00 ET to 15:00 ET"⟩ =
      .ok ⟨"schedule", .slot (⟨2026, 10, 20, 14, 0⟩, ⟨2026, 10, 20, 15, 0⟩)⟩ ∧
    ¬containedIn (⟨2026, 10, 20, 14, 0⟩, ⟨2026, 10, 20, 15, 0⟩)
        [(⟨2026, 10, 21, 9, 0⟩, ⟨2026, 10, 21, 17, 0⟩)] ∧
    actionDeciderPost
        ⟨"pending",
          ⟨30, ⟨2026, 10, 19, 9, 0⟩, ⟨2026, 10, 23, 17, 0⟩, ["alice@x.com"], "", "sync",
            "given"⟩,
          [(⟨2026, 10, 21, 9, 0⟩, ⟨2026, 10, 21, 17, 0⟩)], .null⟩
        ⟨"schedule", .slot (⟨2026, 10, 20, 14, 0⟩, ⟨2026, 10, 20, 15, 0⟩)⟩ =
      (⟨"pending",
          ⟨30, ⟨2026, 10, 19, 9, 0⟩, ⟨2026, 10, 23, 17, 0⟩, ["alice@x.com"], "", "sync",
            "given"⟩,
          [(⟨2026, 10, 21, 9, 0⟩, ⟨2026, 10, 21, 17, 0⟩)],
          .slot (⟨2026, 10, 20, 14, 0⟩, ⟨2026, 10, 20, 15, 0⟩)⟩,
        "schedule") := by
  refine ⟨by decide, by decide, by decide⟩

/-- C1 amended: the action-decision node makes no containment check at all:
for every parsed LLM reply with action "schedule" and a parseable chosen
slot string, exec succeeds with the parsed slot whatever the free-slot list
is (exec's result does not depend on available_slots), and post stores that
slot unconditionally and returns "schedule".  A chosen slot outside the
supplied free-slot list is silently accepted, never rejected. -/
theorem actionDecider_accepts_any_parseable_slot
    (slots slots' : List (DT × DT)) (r : RawDecision) (s : String) (p : DT × DT)
    (hact : r.action = "schedule") (hcs : r.chosen_slot = .str s)
    (hparse : parseChosenSlot s = some p) :
    actionDeciderExec slots r = .ok ⟨"schedule", .slot p⟩ ∧
    actionDeciderExec slots r = actionDeciderExec slots' r ∧
    ∀ req, actionDeciderPost req ⟨"schedule", .slot p⟩ =
      ({ req with chosen_slot := .slot p }, "schedule") := by
  obtain ⟨ract, rcs⟩ := r
  simp only at hact hcs
  subst hact; subst hcs
  have hs : s ≠ "" := by
    intro he
    have hnone : parseChosenSlot "" = none := by decide
    rw [he, hnone] at hparse
    exact Option.noConfusion hparse
  refine ⟨?_, rfl, fun req => by simp [actionDeciderPost]⟩
  simp [actionDeciderExec, ChosenRaw.truthy, hs, hparse]

/-- Witness for C1's amended theorem at a concrete input. -/
theorem actionDecider_accepts_any_parseable_slot_witness :
    parseChosenSlot "2026-10-20 14:00 ET to 15:00 ET" =
        some (⟨2026, 10, 20, 14, 0⟩, ⟨2026, 10, 20, 15, 0⟩) ∧
      (actionDeciderExec [] ⟨"schedule", .str "2026-10-20 14:00 ET to 15:00 ET"⟩ =
          .ok ⟨"schedule", .slot (⟨2026, 10, 20, 14, 0⟩, ⟨2026, 10, 20, 15, 0⟩)⟩ ∧
        actionDeciderExec [] ⟨"schedule", .str "2026-10-20 14:00 ET to 15:00 ET"⟩ =
          actionDeciderExec [(⟨2026, 10, 21, 9, 0⟩, ⟨2026, 10, 21, 17, 0⟩)]
            ⟨"schedule", .str "2026-10-20 14:00 ET to 15:00 ET"⟩ ∧
        ∀ req,
          actionDeciderPost req
              ⟨"schedule", .slot (⟨2026, 10, 20, 14, 0⟩, ⟨2026, 10, 20, 15, 0⟩)⟩ =
            ({ req with
                chosen_slot := .slot (⟨2026, 10, 20, 14, 0⟩, ⟨2026, 10, 20, 15, 0⟩) },
              "schedule")) :=
  ⟨by decide,
    actionDecider_accepts_any_parseable_slot []
      [(⟨2026, 10, 21, 9, 0⟩, ⟨2026, 10, 21, 17, 0⟩)]
      ⟨"schedule", .str "2026-10-20 14:00 ET to 15:00 ET"⟩
      "2026-10-20 14:00 ET to 15:00 ET"
      (⟨2026, 10, 20, 14, 0⟩, ⟨2026, 10, 20, 15, 0⟩) rfl rfl (by decide)⟩

/-- C2, the code evaluated at the failing configuration: no transition of
the wired graph leads to the no-slots email node (it is instantiated but
never registered as any action's destination), and the action decider's
post emits only "schedule" — routed to the meeting scheduler — or
"ask_time" — routed to the proposal node — whatever the request holds; so
a walk whose availability check produced an empty free-slot list can never
reach NoSlotsEmailNode and can still reach the calendar scheduler. -/
theorem no_route_to_no_slots :
    (∀ (n : NodeId) (a : String), successors n a ≠ some (.node .no_slots)) ∧
    (∀ (req : Request) (d : Decision),
      (actionDeciderPost req d).2 = "schedule" ∨ (actionDeciderPost req d).2 = "ask_time") ∧
    successors .action_decider "schedule" = some (.node .meeting_scheduler) ∧
    successors .action_decider "ask_time" = some (.node .time_proposal) := by
  refine ⟨?_, ?_, by decide, by decide⟩
  · intro n a
    cases n <;> simp only [successors] <;> (try split_ifs) <;> simp
  · intro req d
    unfold actionDeciderPost
    split_ifs <;> simp

/-! ### Graph construction (C5) -/

/-- C5: the spec-modelled graph construction fails fatally, before any run,
exactly when some node of the graph can emit an action name with no
registered destination or termination marker; and when construction
succeeds, every action a node of the graph can emit has a registered
destination, so an unregistered action name can never surface during a
walk. -/
theorem validateGraph_fail_fast (nodes : List NodeId) :
    (validateGraph nodes = .error "ConfigurationError" ↔
      ∃ n ∈ nodes, ∃ a ∈ declaredActions n, successors n a = none) ∧
    (validateGraph nodes = .ok () →
      ∀ n ∈ nodes, ∀ a ∈ declaredActions n, (successors n a).isSome = true) := by
  by_cases hall :
      nodes.all (fun n => (declaredActions n).all fun a => (successors n a).isSome) = true
  · rw [validateGraph, if_pos hall]
    simp only [List.all_eq_true] at hall
    refine ⟨⟨fun h => absurd h (by simp), ?_⟩, fun _ n hn a ha => hall n hn a ha⟩
    rintro ⟨n, hn, a, ha, hnone⟩
    have hsome := hall n hn a ha
    rw [hnone] at hsome
    simp at hsome
  · rw [validateGraph, if_neg hall]
    simp only [List.all_eq_true] at hall
    push_neg at hall
    obtain ⟨n, hn, a, ha, hnot⟩ := hall
    refine ⟨⟨fun _ => ⟨n, hn, a, ha, Option.not_isSome_iff_eq_none.mp hnot⟩, fun _ => rfl⟩,
      fun h => absurd h (by simp)⟩

/-! ### The detail-extraction node (C7, C8) -/

theorem rangeExtractorExec_ok_inv (today : DT) (sender : String)
    (cc_list bcc_list : List String) (raw : RawExtract) (m : Meeting)
    (h : rangeExtractorExec today sender cc_list bcc_list raw = .ok m) :
    (∃ sStr, raw.tf_start = some sStr ∧ parseDT sStr = some m.tf_start) ∧
    (∃ eStr, raw.tf_end = some eStr ∧ parseDT eStr = some m.tf_end) ∧
    m.tf_start.key < m.tf_end.key ∧ today.key ≤ m.tf_start.key ∧
    m.attendees = addAttendees (raw.attendees.getD [])
      ([sender] ++ cc_list ++ bcc_list) := by
  unfold rangeExtractorExec at h
  repeat' split at h
  all_goals try exact Except.noConfusion h
  obtain rfl := (Except.ok.inj h).symm
  exact ⟨⟨_, by assumption, by assumption⟩, ⟨_, by assumption, by assumption⟩,
    by assumption, by assumption, rfl⟩

/-- C7: the detail-extraction node's execute stage enforces the timeframe
invariants against the time captured at the start of the call: a success
always satisfies start < end and start not before the captured time, and
whenever the parsed timeframe violates either condition the stage fails
(never returns ok). -/
theorem rangeExtractor_validates_timeframe (today : DT) (sender : String)
    (cc_list bcc_list : List String) (raw : RawExtract) :
    (∀ m, rangeExtractorExec today sender cc_list bcc_list raw = .ok m →
      m.tf_start.key < m.tf_end.key ∧ today.key ≤ m.tf_start.key) ∧
    (∀ sStr eStr st en, raw.tf_start = some sStr → raw.tf_end = some eStr →
      parseDT sStr = some st → parseDT eStr = some en →
      (en.key ≤ st.key ∨ st.key < today.key) →
      ∀ m, rangeExtractorExec today sender cc_list bcc_list raw ≠ .ok m) := by
  constructor
  · intro m hm
    have hinv := rangeExtractorExec_ok_inv today sender cc_list bcc_list raw m hm
    exact ⟨hinv.2.2.1, hinv.2.2.2.1⟩
  · intro sStr eStr st en hs he hps hpe hviol m hm
    have hinv := rangeExtractorExec_ok_inv today sender cc_list bcc_list raw m hm
    obtain ⟨⟨sStr', hs', hps'⟩, ⟨eStr', he', hpe'⟩, hlt, hle, _⟩ := hinv
    rw [hs] at hs'
    obtain rfl := Option.some_inj.mp hs'
    rw [he] at he'
    obtain rfl := Option.some_inj.mp he'
    rw [hps] at hps'
    obtain rfl := Option.some_inj.mp hps'
    rw [hpe] at hpe'
    obtain rfl := Option.some_inj.mp hpe'
    omega

/-- Witness for C7 at a concrete input: a valid extraction succeeds with the
invariants, and the same extraction with the timeframe reversed is
rejected. -/
theorem rangeExtractor_validates_timeframe_witness :
    (∀ m, rangeExtractorExec ⟨2026, 10, 1, 0, 0⟩ "bob@x.com" [] []
        ⟨some 30, some "2026-10-20 14:00 ET", some "2026-10-20 15:00 ET",
          some "sync", some "asked", none, none⟩ = .ok m →
      m.tf_start.key < m.tf_end.key ∧ (DT.mk 2026 10 1 0 0).key ≤ m.tf_start.key) ∧
    (∀ m, rangeExtractorExec ⟨2026, 10, 1, 0, 0⟩ "bob@x.com" [] []
        ⟨some 30, some "2026-10-20 15:00 ET", some "2026-10-20 14:00 ET",
          some "sync", some "asked", none, none⟩ ≠ .ok m) :=
  ⟨(rangeExtractor_validates_timeframe ⟨2026, 10, 1, 0, 0⟩ "bob@x.com" [] []
      ⟨some 30, some "2026-10-20 14:00 ET", some "2026-10-20 15:00 ET",
        some "sync", some "asked", none, none⟩).1,
    (rangeExtractor_validates_timeframe ⟨2026, 10, 1, 0, 0⟩ "bob@x.com" [] []
        ⟨some 30, some "2026-10-20 15:00 ET", some "2026-10-20 14:00 ET",
          some "sync", some "asked", none, none⟩).2
      "2026-10-20 15:00 ET" "2026-10-20 14:00 ET"
      ⟨2026, 10, 20, 15, 0⟩ ⟨2026, 10, 20, 14, 0⟩ rfl rfl (by decide) (by decide)
      (Or.inl (by decide))⟩

/-- C8 counterexample: the extractor keeps whatever attendee list the LLM
supplied at the front, so a reply listing "a@b.com" twice yields a final
attendee list with a duplicate even though the execute stage succeeds: the
claim that the stored list never holds duplicates is false on this input. -/
theorem rangeExtractor_attendees_counterexample :
    rangeExtractorExec ⟨2026, 10, 1, 0, 0⟩ "bob@x.com" [] []
        ⟨some 30, some "2026-10-20 14:00 ET", some "2026-10-20 15:00 ET",
          some "sync", some "asked", some ["a@b.com", "a@b.com"], none⟩ =
      .ok ⟨30, ⟨2026, 10, 20, 14, 0⟩, ⟨2026, 10, 20, 15, 0⟩,
        ["a@b.com", "a@b.com", "bob@x.com"], "", "sync", "asked"⟩ ∧
    ¬(["a@b.com", "a@b.com", "bob@x.com"] : List String).Nodup := by
  refine ⟨by decide, by decide⟩

/-- C8 amended: after a successful execute stage the attendee list contains
the normalized sender address and the normalized address of every cc and
bcc recipient, and the node itself never introduces a duplicate — the list
is duplicate-free whenever the extractor's own raw attendee list was; a
duplicate already present in the raw list is preserved. -/
theorem rangeExtractor_attendees (today : DT) (sender : String)
    (cc_list bcc_list : List String) (raw : RawExtract) (m : Meeting)
    (h : rangeExtractorExec today sender cc_list bcc_list raw = .ok m) :
    normalizeAddr sender ∈ m.attendees ∧
    (∀ a ∈ cc_list, normalizeAddr a ∈ m.attendees) ∧
    (∀ a ∈ bcc_list, normalizeAddr a ∈ m.attendees) ∧
    ((raw.attendees.getD []).Nodup → m.attendees.Nodup) := by
  have hinv := rangeExtractorExec_ok_inv today sender cc_list bcc_list raw m h
  rw [hinv.2.2.2.2]
  refine ⟨?_, ?_, ?_, ?_⟩
  · exact addAttendees_mem _ _ sender (by simp)
  · intro a ha
    exact addAttendees_mem _ _ a (by simp [ha])
  · intro a ha
    exact addAttendees_mem _ _ a (by simp [ha])
  · exact addAttendees_nodup _ _

/-- Witness for C8's amended theorem at a concrete input. -/
theorem rangeExtractor_attendees_witness :
    rangeExtractorExec ⟨2026, 10, 1, 0, 0⟩ "Bob <BOB@X.com>" ["carol@x.com"] ["dave@x.com"]
        ⟨some 30, some "2026-10-20 14:00 ET", some "2026-10-20 15:00 ET",
          some "sync", some "asked", none, none⟩ =
      .ok ⟨30, ⟨2026, 10, 20, 14, 0⟩, ⟨2026, 10, 20, 15, 0⟩,
        ["bob@x.com", "carol@x.com", "dave@x.com"], "", "sync", "asked"⟩ ∧
    (normalizeAddr "Bob <BOB@X.com>" ∈ ["bob@x.com", "carol@x.com", "dave@x.com"] ∧
      (∀ a ∈ ["carol@x.com"],
        normalizeAddr a ∈ ["bob@x.com", "carol@x.com", "dave@x.com"]) ∧
      (∀ a ∈ ["dave@x.com"],
        normalizeAddr a ∈ ["bob@x.com", "carol@x.com", "dave@x.com"]) ∧
      ((Option.getD (none : Option (List String)) []).Nodup →
        (["bob@x.com", "carol@x.com", "dave@x.com"] : List String).Nodup)) :=
  ⟨by decide,
    by
      have h :
          rangeExtractorExec ⟨2026, 10, 1, 0, 0⟩ "Bob <BOB@X.com>" ["carol@x.com"]
              ["dave@x.com"]
              ⟨some 30, some "2026-10-20 14:00 ET", some "2026-10-20 15:00 ET",
                some "sync", some "asked", none, none⟩ =
            .ok ⟨30, ⟨2026, 10, 20, 14, 0⟩, ⟨2026, 10, 20, 15, 0⟩,
              ["bob@x.com", "carol@x.com", "dave@x.com"], "", "sync", "asked"⟩ := by decide
      simpa using rangeExtractor_attendees ⟨2026, 10, 1, 0, 0⟩ "Bob <BOB@X.com>"
        ["carol@x.com"] ["dave@x.com"] _ _ h⟩

/-! ### The email fetcher (C6, C9, C10) -/

/-- C9: the fetcher's execute stage accepts an email exactly when its
normalized sender equals the normalized authorized address or the
authorized address occurs in its cc or bcc list; an email failing all three
tests — in particular one listing the authorized user only among its "to"
recipients — is discarded and can never end up in the workspace mapping. -/
theorem emailFetcher_filters_authorized (authorized_user : String) (emails : List Msg) :
    (∀ res, emailFetcherExec authorized_user emails = some res →
      ∀ m ∈ res,
        normalizeAddr m.sender = normalizeAddr authorized_user ∨
          normalizeAddr authorized_user ∈ m.cc ∨ normalizeAddr authorized_user ∈ m.bcc) ∧
    (∀ m, normalizeAddr m.sender ≠ normalizeAddr authorized_user →
      normalizeAddr authorized_user ∉ m.cc → normalizeAddr authorized_user ∉ m.bcc →
      ∀ res, emailFetcherExec authorized_user emails = some res →
        m ∉ res ∧ ∀ k, dictGet (mkDict res) k ≠ some m) := by
  have hmem : ∀ res, emailFetcherExec authorized_user emails = some res →
      ∀ m ∈ res,
        normalizeAddr m.sender = normalizeAddr authorized_user ∨
          normalizeAddr authorized_user ∈ m.cc ∨ normalizeAddr authorized_user ∈ m.bcc := by
    intro res hres m hm
    unfold emailFetcherExec at hres
    split at hres
    · exact Option.noConfusion hres
    · simp only [] at hres
      split at hres
      · exact Option.noConfusion hres
      · obtain rfl := Option.some_inj.mp hres
        have hfil := (List.mem_filter.mp hm).2
        simpa [or_assoc] using hfil
  refine ⟨hmem, ?_⟩
  intro m hsender hcc hbcc res hres
  have hnot : m ∉ res := by
    intro hm
    rcases hmem res hres m hm with h | h | h
    · exact hsender h
    · exact hcc h
    · exact hbcc h
  refine ⟨hnot, fun k hk => ?_⟩
  exact hnot (mkDict_mem res k m hk).2

/-- Witness for C9 at a concrete input: a sender match is accepted; an email
listing the authorized user only in "to" is dropped. -/
theorem emailFetcher_filters_authorized_witness :
    (∀ res,
      emailFetcherExec "me@x.com"
          [⟨"id1", "me@x.com", [], [], [], "s1", "b1"⟩,
            ⟨"id2", "other@x.com", ["me@x.com"], [], [], "s2", "b2"⟩] = some res →
      ∀ m ∈ res,
        normalizeAddr m.sender = normalizeAddr "me@x.com" ∨
          normalizeAddr "me@x.com" ∈ m.cc ∨ normalizeAddr "me@x.com" ∈ m.bcc) ∧
    (emailFetcherExec "me@x.com"
        [⟨"id1", "me@x.com", [], [], [], "s1", "b1"⟩,
          ⟨"id2", "other@x.com", ["me@x.com"], [], [], "s2", "b2"⟩] =
      some [⟨"id1", "me@x.com", [], [], [], "s1", "b1"⟩]) ∧
    (⟨"id2", "other@x.com", ["me@x.com"], [], [], "s2", "b2"⟩ : Msg) ∉
      [(⟨"id1", "me@x.com", [], [], [], "s1", "b1"⟩ : Msg)] :=
  ⟨(emailFetcher_filters_authorized "me@x.com"
      [⟨"id1", "me@x.com", [], [], [], "s1", "b1"⟩,
        ⟨"id2", "other@x.com", ["me@x.com"], [], [], "s2", "b2"⟩]).1,
    by decide,
    ((emailFetcher_filters_authorized "me@x.com"
        [⟨"id1", "me@x.com", [], [], [], "s1", "b1"⟩,
          ⟨"id2", "other@x.com", ["me@x.com"], [], [], "s2", "b2"⟩]).2
      ⟨"id2", "other@x.com", ["me@x.com"], [], [], "s2", "b2"⟩
      (by decide) (by decide) (by decide)
      [⟨"id1", "me@x.com", [], [], [], "s1", "b1"⟩] (by decide)).1⟩

/-- C6: the fetcher's finalize stage, and its registered transitions: a
falsy execute result (no emails involving the authorized user) sleeps the
fixed 30-second backoff and returns "monitor", whose registered successor
is the fetcher itself; a non-empty result replaces pending_emails with the
mapping keyed by message identifier and returns "analyze_batch", whose
registered successor is the batch analysis flow; the stored mapping is
keyed by each message's own identifier. -/
theorem emailFetcher_monitor_dispatch :
    (∀ shared : Shared,
      emailFetcherPost shared none = (shared, "monitor", [Effect.sleep 30]) ∧
      emailFetcherPost shared (some []) = (shared, "monitor", [Effect.sleep 30])) ∧
    successors .email_fetcher "monitor" = some (.node .email_fetcher) ∧
    (∀ (shared : Shared) (m : Msg) (rest : List Msg),
      emailFetcherPost shared (some (m :: rest)) =
        ({ shared with pending := mkDict (m :: rest) }, "analyze_batch", [])) ∧
    successors .email_fetcher "analyze_batch" = some (.node .email_analysis) ∧
    (∀ (msgs : List Msg) (k : String) (m : Msg),
      dictGet (mkDict msgs) k = some m → m.message_id = k ∧ m ∈ msgs) :=
  ⟨fun _ => ⟨rfl, rfl⟩, by decide, fun _ _ _ => rfl, by decide, mkDict_mem⟩

/-- C10: on a non-empty fetch the finalize stage replaces the whole
pending_emails mapping with exactly the new messages: afterwards a lookup
of any key that is not among the new messages' identifiers yields nothing,
even for keys that were present in the previous mapping. -/
theorem emailFetcherPost_replaces (shared : Shared) (msgs : List Msg) (h : msgs ≠ []) :
    (emailFetcherPost shared (some msgs)).1.pending = mkDict msgs ∧
    ∀ (k : String) (m' : Msg), dictGet shared.pending k = some m' →
      k ∉ msgs.map (fun m => m.message_id) →
      dictGet (emailFetcherPost shared (some msgs)).1.pending k = none := by
  cases msgs with
  | nil => exact absurd rfl h
  | cons m rest =>
    refine ⟨rfl, ?_⟩
    intro k m' _ hk
    exact mkDict_get_none _ k hk

/-- Witness for C10 at a concrete input: the previously pending message
"old" disappears from the mapping once a fetch stores only "new". -/
theorem emailFetcherPost_replaces_witness :
    ([(⟨"new", "me@x.com", [], [], [], "s", "b"⟩ : Msg)] ≠ ([] : List Msg)) ∧
    ((emailFetcherPost ⟨[("old", ⟨"old", "me@x.com", [], [], [], "s0", "b0"⟩)]⟩
          (some [⟨"new", "me@x.com", [], [], [], "s", "b"⟩])).1.pending =
        mkDict [⟨"new", "me@x.com", [], [], [], "s", "b"⟩] ∧
      ∀ (k : String) (m' : Msg),
        dictGet [("old", ⟨"old", "me@x.com", [], [], [], "s0", "b0"⟩)] k = some m' →
        k ∉ List.map (fun m : Msg => m.message_id)
            [(⟨"new", "me@x.com", [], [], [], "s", "b"⟩ : Msg)] →
        dictGet (emailFetcherPost ⟨[("old", ⟨"old", "me@x.com", [], [], [], "s0", "b0"⟩)]⟩
            (some [⟨"new", "me@x.com", [], [], [], "s", "b"⟩])).1.pending k = none) :=
  ⟨by decide,
    emailFetcherPost_replaces ⟨[("old", ⟨"old", "me@x.com", [], [], [], "s0", "b0"⟩)]⟩
      [⟨"new", "me@x.com", [], [], [], "s", "b"⟩] (by decide)⟩

/-! ### The batch flow (C4) -/

/-- C4: the spec-modelled batch runner is isolated per item and uniform in
its aggregate: for every workspace snapshot the batch yields the aggregate
action "default" — whose registered successor is the polling fetcher —
with one outcome per pending item, and the i-th item's recorded outcome is
exactly its own walk's result, whatever the other items' walks did. -/
theorem batchFlow_isolated (shared : Shared) (runWalk : String → Except String String)
    (i : Nat) (h : i < (emailAnalysisBatchPrep shared).length) :
    (batchRun (emailAnalysisBatchPrep shared) runWalk).1 = "default" ∧
    (batchRun (emailAnalysisBatchPrep shared) runWalk).2.length =
      (emailAnalysisBatchPrep shared).length ∧
    successors .email_analysis "default" = some (.node .email_fetcher) ∧
    ∃ h2 : i < (batchRun (emailAnalysisBatchPrep shared) runWalk).2.length,
      (batchRun (emailAnalysisBatchPrep shared) runWalk).2.get ⟨i, h2⟩ =
        ((emailAnalysisBatchPrep shared).get ⟨i, h⟩,
          runWalk ((emailAnalysisBatchPrep shared).get ⟨i, h⟩)) := by
  refine ⟨rfl, by simp [batchRun], by decide, ?_⟩
  refine ⟨by simpa [batchRun] using h, ?_⟩
  simp [batchRun]

/-- Witness for C4 at a concrete input: a two-item batch where the second
item's walk fails still records the first item's terminal action and yields
"default". -/
theorem batchFlow_isolated_witness :
    (0 < (emailAnalysisBatchPrep
        ⟨[("id1", ⟨"id1", "me@x.com", [], [], [], "s1", "b1"⟩),
          ("id2", ⟨"id2", "me@x.com", [], [], [], "s2", "b2"⟩)]⟩).length) ∧
    ((batchRun (emailAnalysisBatchPrep
          ⟨[("id1", ⟨"id1", "me@x.com", [], [], [], "s1", "b1"⟩),
            ("id2", ⟨"id2", "me@x.com", [], [], [], "s2", "b2"⟩)]⟩)
        (fun p => if p = "id2" then .error "ExecutionError" else .ok "end")).1 = "default" ∧
      (batchRun (emailAnalysisBatchPrep
          ⟨[("id1", ⟨"id1", "me@x.com", [], [], [], "s1", "b1"⟩),
            ("id2", ⟨"id2", "me@x.com", [], [], [], "s2", "b2"⟩)]⟩)
        (fun p => if p = "id2" then .error "ExecutionError" else .ok "end")).2.length =
        (emailAnalysisBatchPrep
          ⟨[("id1", ⟨"id1", "me@x.com", [], [], [], "s1", "b1"⟩),
            ("id2", ⟨"id2", "me@x.com", [], [], [], "s2", "b2"⟩)]⟩).length ∧
      successors .email_analysis "default" = some (.node .email_fetcher) ∧
      ∃ h2 : 0 < (batchRun (emailAnalysisBatchPrep
          ⟨[("id1", ⟨"id1", "me@x.com", [], [], [], "s1", "b1"⟩),
            ("id2", ⟨"id2", "me@x.com", [], [], [], "s2", "b2"⟩)]⟩)
          (fun p => if p = "id2" then .error "ExecutionError" else .ok "end")).2.length,
        (batchRun (emailAnalysisBatchPrep
            ⟨[("id1", ⟨"id1", "me@x.com", [], [], [], "s1", "b1"⟩),
              ("id2", ⟨"id2", "me@x.com", [], [], [], "s2", "b2"⟩)]⟩)
          (fun p => if p = "id2" then .error "ExecutionError" else .ok "end")).2.get
            ⟨0, h2⟩ =
          ((emailAnalysisBatchPrep
              ⟨[("id1", ⟨"id1", "me@x.com", [], [], [], "s1", "b1"⟩),
                ("id2", ⟨"id2", "me@x.com", [], [], [], "s2", "b2"⟩)]⟩).get
              ⟨0, by decide⟩,
            (fun p => if p = "id2" then .error "ExecutionError" else .ok "end")
              ((emailAnalysisBatchPrep
                ⟨[("id1", ⟨"id1", "me@x.com", [], [], [], "s1", "b1"⟩),
                  ("id2", ⟨"id2", "me@x.com", [], [], [], "s2", "b2"⟩)]⟩).get
                ⟨0, by decide⟩))) :=
  ⟨by decide,
    batchFlow_isolated
      ⟨[("id1", ⟨"id1", "me@x.com", [], [], [], "s1", "b1"⟩),
        ("id2", ⟨"id2", "me@x.com", [], [], [], "s2", "b2"⟩)]⟩
      (fun p => if p = "id2" then .error "ExecutionError" else .ok "end") 0 (by decide)⟩

end MeetingScheduler
